import Mathlib

/-!
Verification of the batch translation pipeline (`translate.py`).

The Python source is shallowly embedded:
* Python strings are Lean `String`s; character-level work is done on `List Char`
  (`String.data`).  `str.strip()` is modelled with `Char.isWhitespace` (ASCII
  whitespace) and `str.lower()` with `Char.toLower`; the inputs exercised by the
  claims are single-line, so the newline subtleties of Python's `.` regex class
  are not modelled.
* Python dicts are association lists (`List (String × α)`) with Python's
  update-in-place-or-append assignment semantics (`dictInsert`).
* The two translation providers are an explicit environment `Env` of functions
  `String → Except String String`; an `Except.error` models the provider call
  raising.  Network calls, the rate-limiting sleep and the error print are
  recorded as an explicit trace of `Event`s.
* `json.dump(…, ensure_ascii := False, indent := 2)` / `json.load` are embedded
  as a concrete renderer and parser for the string-to-string JSON objects the
  cache file holds.
-/

namespace TranslatePy

/-! ### Python dict as association list -/

/-- `d[k] = v` on a Python dict: overwrite in place if the key exists,
otherwise append at the end (insertion order is preserved). -/
def dictInsert {α : Type} : List (String × α) → String → α → List (String × α)
  | [], k, v => [(k, v)]
  | (k2, v2) :: rest, k, v =>
    if k2 = k then (k2, v) :: rest else (k2, v2) :: dictInsert rest k v

/-- `d.get(k)` / `k in d` on a Python dict. -/
def dictLookup {α : Type} : List (String × α) → String → Option α
  | [], _ => none
  | (k2, v2) :: rest, k => if k2 = k then some v2 else dictLookup rest k

theorem dictLookup_dictInsert_self {α : Type} (d : List (String × α)) (k : String) (v : α) :
    dictLookup (dictInsert d k v) k = some v := by
  induction d with
  | nil => simp [dictInsert, dictLookup]
  | cons p rest ih =>
    obtain ⟨k2, v2⟩ := p
    by_cases h : k2 = k <;> simp [dictInsert, dictLookup, h, ih]

theorem dictLookup_dictInsert_ne {α : Type} (d : List (String × α)) (k k2 : String) (v : α)
    (h : k2 ≠ k) : dictLookup (dictInsert d k v) k2 = dictLookup d k2 := by
  induction d with
  | nil =>
    have hk : k ≠ k2 := fun hh => h hh.symm
    simp [dictInsert, dictLookup, hk]
  | cons p rest ih =>
    obtain ⟨k3, v3⟩ := p
    by_cases h3 : k3 = k
    · subst h3
      have hk : k3 ≠ k2 := fun hh => h hh.symm
      simp [dictInsert, dictLookup, hk]
    · by_cases h2 : k3 = k2 <;> simp [dictInsert, dictLookup, h2, h3, h, ih]

/-! ### Character-level helpers for the cleaners -/

def isWs (c : Char) : Bool := c.isWhitespace

/-- Python `str.strip()`. -/
def trimChars (cs : List Char) : List Char :=
  ((cs.dropWhile isWs).reverse.dropWhile isWs).reverse

/-- Python `str.lower()` (ASCII letters; the claim inputs are ASCII). -/
def lowerChars (cs : List Char) : List Char := cs.map Char.toLower

/-- Python `str.split(sep)` for a one-character separator. -/
def pySplitChar (sep : Char) : List Char → List (List Char)
  | [] => [[]]
  | c :: rest =>
    if c = sep then [] :: pySplitChar sep rest
    else
      match pySplitChar sep rest with
      | [] => [[c]]
      | h :: t => (c :: h) :: t

/-- `clean_generated_answer` (translate.py lines 35-42): take the first
comma-separated token and strip it. -/
def clean_generated_answer (s : String) : String :=
  if s = "" then ""
  else if s.data.contains ',' then
    String.mk (trimChars ((pySplitChar ',' s.data).headD []))
  else String.mk (trimChars s.data)

/-- A word `w` sits at the start of `cs` and is followed by at least one
whitespace character (regex `w\s`); used for `\s+(w1|w2|…)\s+` matching where
the word always starts at the first non-whitespace position. -/
def wordThenWs (w : List Char) (cs : List Char) : Bool :=
  w.isPrefixOf cs &&
    (match cs.drop w.length with
     | c :: _ => isWs c
     | [] => false)

/-- Regex `^w\s+` at the start of `cs`: if `cs = w ++ ws-run ++ rest`, return
`rest` with the (greedy, maximal) whitespace run removed. -/
def stripAfterWord (w : List Char) (cs : List Char) : Option (List Char) :=
  if w.isPrefixOf cs then
    match cs.drop w.length with
    | c :: _ => if isWs c then some ((cs.drop w.length).dropWhile isWs) else none
    | [] => none
  else none

/-- Pattern `^(a|an|the)\s+` (ordered alternation, as `re.sub` tries it). -/
def stripArticle (cs : List Char) : List Char :=
  match stripAfterWord ['a'] cs with
  | some r => r
  | none =>
    match stripAfterWord ['a', 'n'] cs with
    | some r => r
    | none =>
      match stripAfterWord ['t', 'h', 'e'] cs with
      | some r => r
      | none => cs

def copulaWords : List (List Char) :=
  [['i', 's'], ['a', 'r', 'e'], ['w', 'a', 's'], ['w', 'e', 'r', 'e']]

/-- Does `\s+(is|are|was|were)\s+` match starting exactly at the head of `cs`? -/
def copulaMatchHere (cs : List Char) : Bool :=
  match cs with
  | c :: _ => isWs c && copulaWords.any (fun w => wordThenWs w (cs.dropWhile isWs))
  | [] => false

/-- Pattern `\s+(is|are|was|were)\s+.*$`: `re.sub` removes from the leftmost
match position to the end of the string. -/
def dropCopulaTail : List Char → List Char
  | [] => []
  | c :: rest => if copulaMatchHere (c :: rest) then [] else c :: dropCopulaTail rest

/-- Patterns `^it\s+(is|was)\s+`, `^this\s+(is|was)\s+`, `^that\s+(is|was)\s+`. -/
def stripPronCopula (pron : List Char) (cs : List Char) : List Char :=
  match stripAfterWord pron cs with
  | none => cs
  | some rest1 =>
    match stripAfterWord ['i', 's'] rest1 with
    | some r => r
    | none =>
      match stripAfterWord ['w', 'a', 's'] rest1 with
      | some r => r
      | none => cs

def splitTokens : List (List Char) :=
  [['i', 's'], ['a', 'r', 'e'], ['a', 'n', 'd'], ['o', 'r']]

/-- Does `[,;.]|\s+(is|are|and|or)\s+` match starting at the head of `cs`? -/
def splitMatchHere (cs : List Char) : Bool :=
  match cs with
  | c :: _ =>
    c = ',' || c = ';' || c = '.' ||
      (isWs c && splitTokens.any (fun w => wordThenWs w (cs.dropWhile isWs)))
  | [] => false

/-- `re.split(r'[,;.]|\s+(is|are|and|or)\s+', text)[0]`: the prefix before the
leftmost match of the separator pattern. -/
def takeBeforeSplit : List Char → List Char
  | [] => []
  | c :: rest => if splitMatchHere (c :: rest) then [] else c :: takeBeforeSplit rest

/-- `clean_translated_text` (translate.py lines 44-66): lower-case and strip,
apply the five ordered `re.sub` patterns, then keep the trimmed segment before
the first punctuation/conjunction separator. -/
def clean_translated_text (s : String) : String :=
  if s = "" then ""
  else
    let t0 := trimChars (lowerChars s.data)
    let t1 := stripArticle t0
    let t2 := dropCopulaTail t1
    let t3 := stripPronCopula ['i', 't'] t2
    let t4 := stripPronCopula ['t', 'h', 'i', 's'] t3
    let t5 := stripPronCopula ['t', 'h', 'a', 't'] t4
    String.mk (trimChars (takeBeforeSplit t5))

/-! ### Translator (translate.py lines 68-101)

The two provider libraries are modelled as an environment of deterministic
functions; `Except.error e` models the provider call raising an exception with
message `e`.  Each provider invocation is recorded as a `.net` trace event,
`time.sleep(0.1)` as `.sleep`, and the `print` on the outer exception handler
as `.errlog`. -/

inductive Provider where
  | google
  | mymemory
deriving DecidableEq, Repr

inductive Event where
  /-- A network call to a provider with the given source text. -/
  | net : Provider → String → Event
  /-- `time.sleep(0.1)` — the rate-limiting pause. -/
  | sleep : Event
  /-- The `print` of `Translation error for …` in the outer handler. -/
  | errlog : String → String → Event
deriving DecidableEq, Repr

structure Env where
  google : String → Except String String
  mymemory : String → Except String String

abbrev Cache := List (String × String)

structure TResult where
  result : String
  cache : Cache
  events : List Event
deriving DecidableEq, Repr

/-- `translate_text(text, source_lang, cache)` (translate.py lines 68-101).
The outer `try` can only fail at the primary provider call (everything after
it is assignment, cleaning and the inner `try`, none of which raise), so the
outer `except` branch corresponds to `env.google text = .error e`.  In the
inner `except:` branch the Python variable `translated` still holds the
primary provider's output, since the failed fallback call never assigned it. -/
def translate_text (env : Env) (text source_lang : String) (cache : Cache) : TResult :=
  if text = "" then ⟨"", cache, []⟩
  else
    let cache_key := source_lang ++ ":" ++ text
    match dictLookup cache cache_key with
    | some v => ⟨v, cache, []⟩
    | none =>
      match env.google text with
      | .error e => ⟨text, cache, [.net .google text, .errlog text e]⟩
      | .ok translated =>
        let cleaned := clean_translated_text translated
        if cleaned = "" then
          match env.mymemory text with
          | .ok translated2 =>
            let cleaned2 := clean_translated_text translated2
            ⟨cleaned2, dictInsert cache cache_key cleaned2,
              [.net .google text, .net .mymemory text, .sleep]⟩
          | .error _ =>
            ⟨translated, dictInsert cache cache_key translated,
              [.net .google text, .net .mymemory text, .sleep]⟩
        else
          ⟨cleaned, dictInsert cache cache_key cleaned, [.net .google text, .sleep]⟩

def isNet : Event → Bool
  | .net _ _ => true
  | _ => false

def isSleep : Event → Bool
  | .sleep => true
  | _ => false

/-- Number of network calls recorded in a trace. -/
def countNet (evs : List Event) : Nat := (evs.filter isNet).length

/-- Number of rate-limiting sleeps recorded in a trace. -/
def countSleep (evs : List Event) : Nat := (evs.filter isSleep).length

/-! ### Records and the file processor (translate.py lines 103-147)

A JSON record is a Python dict from string keys to JSON values; the pipeline
only ever reads string-valued (`Generated`) and string-array-valued (`Answer`)
fields, so those two shapes (plus numbers, standing for any other pass-through
value) suffice for the value type. -/

inductive Jval where
  | jstr : String → Jval
  | jarr : List String → Jval
  | jnum : Int → Jval
deriving DecidableEq, Repr

abbrev Record := List (String × Jval)

/-- `data.get(key, "")` — the spec's input contract (§6) makes `Generated` a
string when present, so a non-string value is out of contract and mapped to
the default. -/
def getStrD (rec : Record) (k : String) : String :=
  match dictLookup rec k with
  | some (.jstr s) => s
  | _ => ""

/-- `data.get(key, [])` — same input-contract remark as `getStrD`. -/
def getArrD (rec : Record) (k : String) : List String :=
  match dictLookup rec k with
  | some (.jarr l) => l
  | _ => []

/-- The `for answer in data.get("Answer", [])` loop: translate each entry in
order, threading the cache, collecting results and trace. -/
def translateList (env : Env) (lang : String) : List String → Cache → List String × Cache × List Event
  | [], c => ([], c, [])
  | a :: rest, c =>
    let r := translate_text env a lang c
    let rr := translateList env lang rest r.cache
    (r.result :: rr.1, rr.2.1, r.events ++ rr.2.2)

structure PRes where
  record : Record
  cache : Cache
  events : List Event
deriving DecidableEq, Repr

/-- The per-line body of `process_file` (translate.py lines 116-139): clean the
generated answer, translate it when non-empty, translate the answer list, and
attach the three derived fields to the record (Python dict mutation order is
kept: `Answer` is read after the first two assignments). -/
def processRecord (env : Env) (lang : String) (rec0 : Record) (cache : Cache) : PRes :=
  let cleaned := clean_generated_answer (getStrD rec0 "Generated")
  let rec1 := dictInsert rec0 "CleanedAnswer" (.jstr cleaned)
  let tr : TResult :=
    if cleaned = "" then ⟨"", cache, []⟩ else translate_text env cleaned lang cache
  let rec2 := dictInsert rec1 "TranslatedAnswer" (.jstr tr.result)
  let tl := translateList env lang (getArrD rec2 "Answer") tr.cache
  let rec3 := dictInsert rec2 "TranslatedAnswerList" (.jarr tl.1)
  ⟨rec3, tl.2.1, tr.events ++ tl.2.2⟩

/-- `process_file` (translate.py lines 103-147) on the list of parsed input
lines: apply `processRecord` to each record in order, threading the cache.
(The file handling, progress bar and periodic cache checkpointing surround
this loop in the source and do not touch the per-record data flow.) -/
def process_file (env : Env) (lang : String) : List Record → Cache → List Record × Cache × List Event
  | [], c => ([], c, [])
  | r :: rs, c =>
    let p := processRecord env lang r c
    let rest := process_file env lang rs p.cache
    (p.record :: rest.1, rest.2.1, p.events ++ rest.2.2)

/-! ### Cache store (translate.py lines 16-24)

`save_cache` is `json.dump(cache, f, ensure_ascii = False, indent = 2)` on a
string-to-string dict: items one per line, two-space indent, `", "`-free
(`", "` becomes `",\n  "` under `indent = 2`), non-ASCII characters verbatim,
with the standard JSON escapes for quote, backslash and control characters.
`load_cache` is `json.load` restricted to that document shape (an object whose
values are strings), building the dict pair by pair (a later duplicate key
overwrites, as in Python). -/

def hexDigitChar (n : Nat) : Char :=
  if n < 10 then Char.ofNat (48 + n) else Char.ofNat (87 + n)

/-- JSON escaping of one character as Python's `ensure_ascii = False` encoder
does it: `"`, `\`, the five short escapes, `\u00xx` for the remaining control
characters, everything else (ASCII or not) verbatim. -/
def escapeChar (c : Char) : List Char :=
  if c = '"' then ['\\', '"']
  else if c = '\\' then ['\\', '\\']
  else if c = '\n' then ['\\', 'n']
  else if c = '\r' then ['\\', 'r']
  else if c = '\t' then ['\\', 't']
  else if c = Char.ofNat 8 then ['\\', 'b']
  else if c = Char.ofNat 12 then ['\\', 'f']
  else if c.toNat < 32 then
    ['\\', 'u', '0', '0', hexDigitChar (c.toNat / 16), hexDigitChar (c.toNat % 16)]
  else [c]

def escString (cs : List Char) : List Char := (cs.map escapeChar).flatten

/-- A JSON string literal. -/
def renderJString (s : String) : List Char := '"' :: escString s.data ++ ['"']

def renderPair (p : String × String) : List Char :=
  renderJString p.1 ++ [':', ' '] ++ renderJString p.2

/-- The items of the object, joined by `",\n  "` (comma then the two-space
indent of `json.dump(…, indent = 2)`). -/
def renderItems : List (String × String) → List Char
  | [] => []
  | [p] => renderPair p
  | p :: q :: rest => renderPair p ++ [',', '\n', ' ', ' '] ++ renderItems (q :: rest)

/-- `save_cache` (translate.py lines 22-24): the exact file text produced by
`json.dump(cache, f, ensure_ascii = False, indent = 2)`. -/
def save_cache (cache : Cache) : String :=
  match cache with
  | [] => String.mk ['{', '}']
  | _ => String.mk (['{', '\n', ' ', ' '] ++ renderItems cache ++ ['\n', '}'])

def hexVal (c : Char) : Option Nat :=
  if '0' ≤ c ∧ c ≤ '9' then some (c.toNat - 48)
  else if 'a' ≤ c ∧ c ≤ 'f' then some (c.toNat - 87)
  else if 'A' ≤ c ∧ c ≤ 'F' then some (c.toNat - 55)
  else none

def decodeEsc (e : Char) : Option Char :=
  if e = '"' then some '"'
  else if e = '\\' then some '\\'
  else if e = '/' then some '/'
  else if e = 'n' then some '\n'
  else if e = 'r' then some '\r'
  else if e = 't' then some '\t'
  else if e = 'b' then some (Char.ofNat 8)
  else if e = 'f' then some (Char.ofNat 12)
  else none

/-- Scan the body of a JSON string literal (the opening quote already
consumed), decoding escapes, up to the closing quote; returns the decoded
content and the remaining input. -/
def parseJStringAux (fuel : Nat) (cs : List Char) : Option (List Char × List Char) :=
  match fuel with
  | 0 => none
  | fuel + 1 =>
    match cs with
    | [] => none
    | c :: rest =>
      if c = '"' then some ([], rest)
      else if c = '\\' then
        match rest with
        | [] => none
        | e :: rest2 =>
          if e = 'u' then
            match rest2 with
            | a :: b :: c2 :: d :: rest3 =>
              match hexVal a, hexVal b, hexVal c2, hexVal d with
              | some x, some y, some z, some w =>
                (parseJStringAux fuel rest3).map fun p =>
                  (Char.ofNat (4096 * x + 256 * y + 16 * z + w) :: p.1, p.2)
              | _, _, _, _ => none
            | _ => none
          else
            match decodeEsc e with
            | some ch => (parseJStringAux fuel rest2).map fun p => (ch :: p.1, p.2)
            | none => none
      else (parseJStringAux fuel rest).map fun p => (c :: p.1, p.2)

def parseJString (cs : List Char) : Option (String × List Char) :=
  match cs with
  | [] => none
  | c :: rest =>
    if c = '"' then (parseJStringAux rest.length rest).map fun p => (String.mk p.1, p.2)
    else none

def skipWs (cs : List Char) : List Char := cs.dropWhile isWs

/-- Parse the members of a non-empty JSON object of strings, positioned at the
opening quote of a key; requires the document to end right after the closing
brace, as `json.load` does. -/
def parsePairs (fuel : Nat) (cs : List Char) : Option (List (String × String)) :=
  match fuel with
  | 0 => none
  | fuel + 1 =>
    match parseJString cs with
    | none => none
    | some (k, cs1) =>
      match skipWs cs1 with
      | [] => none
      | c :: cs3 =>
        if c = ':' then
          match parseJString (skipWs cs3) with
          | none => none
          | some (v, cs5) =>
            match skipWs cs5 with
            | [] => none
            | c2 :: cs7 =>
              if c2 = ',' then
                (parsePairs fuel (skipWs cs7)).map fun ps => (k, v) :: ps
              else if c2 = '}' then
                if skipWs cs7 = [] then some [(k, v)] else none
              else none
        else none

/-- `json.load` on a document holding an object of strings: the member list in
document order. -/
def json_loads (s : String) : Option (List (String × String)) :=
  match skipWs s.data with
  | [] => none
  | c :: cs1 =>
    if c = '{' then
      match skipWs cs1 with
      | [] => none
      | c2 :: cs3 =>
        if c2 = '}' then (if skipWs cs3 = [] then some [] else none)
        else parsePairs (c2 :: cs3).length (c2 :: cs3)
    else none

/-- Building the Python dict from the parsed members: a later duplicate key
overwrites the earlier value. -/
def buildDict (ps : List (String × String)) : Cache :=
  ps.foldl (fun d p => dictInsert d p.1 p.2) []

/-- `load_cache` (translate.py lines 16-20): absent file yields the empty
dict, otherwise the file text is parsed; `fileText` is the content of
`translation_cache.json` when it exists. -/
def load_cache (fileText : Option String) : Option Cache :=
  match fileText with
  | none => some []
  | some s => (json_loads s).map buildDict

example :
    load_cache (some (save_cache [("as:cat", "meow"), ("as:চাহ", "চা\"h")])) =
      some [("as:cat", "meow"), ("as:চাহ", "চা\"h")] := by decide

example : load_cache (some (save_cache [])) = some [] := by decide

example : clean_generated_answer "" = "" := by decide
example : clean_generated_answer "cat, animal" = "cat" := by decide
example : clean_generated_answer "dog" = "dog" := by decide
example : clean_generated_answer "  dog  " = "dog" := by decide
example : clean_translated_text "" = "" := by decide
example : clean_translated_text "The cat is an animal" = "cat" := by decide
example : clean_translated_text "." = "" := by decide
example : clean_translated_text "it is a house" = "it" := by decide
example : clean_translated_text "An elephant, big" = "elephant" := by decide

/-! ## Helper lemmas for the cleaners -/

theorem pySplitChar_ne_nil (sep : Char) (l : List Char) : pySplitChar sep l ≠ [] := by
  cases l with
  | nil => simp [pySplitChar]
  | cons c rest =>
    by_cases h : c = sep
    · simp [pySplitChar, h]
    · simp only [pySplitChar, h, if_false]
      cases pySplitChar sep rest <;> simp

theorem pySplitChar_headD (sep : Char) (l : List Char) :
    (pySplitChar sep l).head?.getD [] = l.takeWhile (fun c => c != sep) := by
  induction l with
  | nil => rfl
  | cons c rest ih =>
    by_cases h : c = sep
    · subst h
      simp [pySplitChar, List.takeWhile_cons]
    · have hne := pySplitChar_ne_nil sep rest
      cases hps : pySplitChar sep rest with
      | nil => exact absurd hps hne
      | cons hh tt =>
        rw [hps] at ih
        have hb : (c != sep) = true := by
          simp only [bne_iff_ne]
          exact h
        simp only [pySplitChar, h, if_false, hps, List.takeWhile_cons, hb, if_true]
        simp only [List.head?_cons, Option.getD_some] at ih ⊢
        rw [ih]

theorem takeWhile_of_not_mem (l : List Char) (h : ',' ∉ l) :
    l.takeWhile (fun c => c != ',') = l := by
  induction l with
  | nil => simp
  | cons c rest ih =>
    simp only [List.mem_cons, not_or] at h
    obtain ⟨h1, h2⟩ := h
    have hb : (c != ',') = true := by
      simp only [bne_iff_ne]
      exact fun hh => h1 hh.symm
    simp [List.takeWhile_cons, hb, ih h2]

/-! ## The translator environments used as concrete test inputs -/

/-- Both providers are down. -/
def envBothFail : Env := ⟨fun _ => .error "offline", fun _ => .error "offline"⟩

/-- The primary provider answers `"."` (which cleans to the empty string),
the fallback answers `"feline"`. -/
def envDotThenOk : Env := ⟨fun _ => .ok ".", fun _ => .ok "feline"⟩

/-- The primary provider answers `"."` (which cleans to the empty string),
the fallback raises. -/
def envDotThenFail : Env := ⟨fun _ => .ok ".", fun _ => .error "mm down"⟩

/-! ## Claim theorems: cleaners -/

/-- C7: for every string `S`, `clean_generated_answer S` is the substring of
`S` before the first comma with surrounding whitespace trimmed; with no comma
it is `S` trimmed; and on `""` it is `""`. -/
theorem clean_generated_answer_spec (s : String) :
    clean_generated_answer s = String.mk (trimChars (s.data.takeWhile (fun c => c != ','))) ∧
    (',' ∉ s.data → clean_generated_answer s = String.mk (trimChars s.data)) ∧
    clean_generated_answer "" = "" := by
  refine ⟨?_, ?_, by decide⟩
  · by_cases h0 : s = ""
    · subst h0; decide
    · by_cases hc : ',' ∈ s.data
      · simp [clean_generated_answer, h0, hc, pySplitChar_headD]
      · rw [takeWhile_of_not_mem s.data hc]
        simp [clean_generated_answer, h0, hc]
  · intro h
    by_cases h0 : s = ""
    · subst h0; decide
    · simp [clean_generated_answer, h0, h]

theorem clean_generated_answer_spec_witness :
    clean_generated_answer "cat, animal" =
      String.mk (trimChars ("cat, animal".data.takeWhile (fun c => c != ','))) ∧
    clean_generated_answer "dog" = String.mk (trimChars "dog".data) :=
  ⟨(clean_generated_answer_spec "cat, animal").1,
   (clean_generated_answer_spec "dog").2.1 (by decide)⟩


/-- C8: `clean_translated_text` maps `""` to `""` and
`"The cat is an animal"` — through lower-casing, the ordered substitutions
stripping the leading article and the trailing copular clause, and the final
split — to `"cat"`. -/
theorem clean_translated_text_spec :
    clean_translated_text "" = "" ∧ clean_translated_text "The cat is an animal" = "cat" :=
  ⟨by decide, by decide⟩

/-! ## Claim theorems: translator -/

/-- C1 (amended): if the primary provider call does not raise, the two calls
issue at most two network calls (primary plus, when cleaning gives the empty
string, one fallback call), all in the first invocation; after the first call
the key `L ++ ":" ++ T` is cached, and the second call issues no network call
and returns an identical string. -/
theorem translate_text_idempotent (env : Env) (text lang : String) (cache : Cache)
    (h0 : text ≠ "") (hg : ∀ e, env.google text ≠ .error e) :
    countNet (translate_text env text lang cache).events ≤ 2 ∧
    dictLookup (translate_text env text lang cache).cache (lang ++ ":" ++ text) ≠ none ∧
    countNet (translate_text env text lang (translate_text env text lang cache).cache).events
      = 0 ∧
    (translate_text env text lang (translate_text env text lang cache).cache).result =
      (translate_text env text lang cache).result := by
  cases hl : dictLookup cache (lang ++ ":" ++ text) with
  | some v => simp [translate_text, h0, hl, countNet]
  | none =>
    cases hgo : env.google text with
    | error e => exact absurd hgo (hg e)
    | ok g =>
      by_cases hcl : clean_translated_text g = ""
      · cases hmm : env.mymemory text with
        | ok g2 =>
          simp [translate_text, h0, hl, hgo, hcl, hmm, countNet, isNet,
            dictLookup_dictInsert_self]
        | error e2 =>
          simp [translate_text, h0, hl, hgo, hcl, hmm, countNet, isNet,
            dictLookup_dictInsert_self]
      · simp [translate_text, h0, hl, hgo, hcl, countNet, isNet,
          dictLookup_dictInsert_self]

theorem translate_text_idempotent_witness :
    countNet (translate_text envDotThenOk "cat" "as" []).events ≤ 2 ∧
    dictLookup (translate_text envDotThenOk "cat" "as" []).cache ("as" ++ ":" ++ "cat")
      ≠ none ∧
    countNet (translate_text envDotThenOk "cat" "as"
        (translate_text envDotThenOk "cat" "as" []).cache).events = 0 ∧
    (translate_text envDotThenOk "cat" "as"
        (translate_text envDotThenOk "cat" "as" []).cache).result =
      (translate_text envDotThenOk "cat" "as" []).result :=
  translate_text_idempotent envDotThenOk "cat" "as" [] (by decide)
    (fun _ h => Except.noConfusion h)

/-- C1 counterexample: a first call that triggers the fallback already makes
two network calls; and when the primary call raises, nothing is cached and the
second call hits the network again, so the pair of calls makes two network
calls and the second is not served from the cache. -/
theorem translate_text_idempotent_counterexample :
    countNet (translate_text envDotThenOk "cat" "as" []).events = 2 ∧
    dictLookup (translate_text envBothFail "hat" "as" []).cache "as:hat" = none ∧
    countNet (translate_text envBothFail "hat" "as"
        (translate_text envBothFail "hat" "as" []).cache).events = 1 := by decide

/-- C2 (amended): when the primary provider succeeds but its cleaned output is
empty, the fallback provider is invoked and its output cleaned instead; when
the fallback call itself raises, the result used (and cached) is the *primary*
provider's raw, uncleaned output (the Python variable `translated` still holds
the primary result, the failed fallback call never assigned it). -/
theorem translate_text_fallback (env : Env) (text lang : String) (cache : Cache)
    (g : String) (h0 : text ≠ "") (hl : dictLookup cache (lang ++ ":" ++ text) = none)
    (hg : env.google text = .ok g) (hcl : clean_translated_text g = "") :
    (∀ g2, env.mymemory text = .ok g2 →
      (translate_text env text lang cache).result = clean_translated_text g2 ∧
      (translate_text env text lang cache).cache =
        dictInsert cache (lang ++ ":" ++ text) (clean_translated_text g2) ∧
      Event.net .mymemory text ∈ (translate_text env text lang cache).events) ∧
    (∀ e, env.mymemory text = .error e →
      (translate_text env text lang cache).result = g ∧
      (translate_text env text lang cache).cache =
        dictInsert cache (lang ++ ":" ++ text) g ∧
      Event.net .mymemory text ∈ (translate_text env text lang cache).events) := by
  constructor
  · intro g2 hmm
    simp [translate_text, h0, hl, hg, hcl, hmm]
  · intro e hmm
    simp [translate_text, h0, hl, hg, hcl, hmm]

theorem translate_text_fallback_witness :
    (translate_text envDotThenFail "x" "as" []).result = "." ∧
    (translate_text envDotThenFail "x" "as" []).cache =
      dictInsert [] ("as" ++ ":" ++ "x") "." ∧
    Event.net .mymemory "x" ∈ (translate_text envDotThenFail "x" "as" []).events :=
  (translate_text_fallback envDotThenFail "x" "as" [] "." (by decide) (by decide) rfl
    (by decide)).2 "mm down" rfl

/-- C2 counterexample: here the fallback call raises, so the fallback provider
produces no output at all; the value used and cached is `"."`, the primary
provider's raw output — not an output of the fallback provider. -/
theorem translate_text_fallback_counterexample :
    envDotThenFail.mymemory "x" = Except.error "mm down" ∧
    (translate_text envDotThenFail "x" "as" []).result = "." ∧
    (translate_text envDotThenFail "x" "as" []).cache = [("as:x", ".")] ∧
    envDotThenFail.google "x" = Except.ok "." ∧
    ¬∃ s, envDotThenFail.mymemory "x" = Except.ok s ∧
      (translate_text envDotThenFail "x" "as" []).result = s := by
  refine ⟨rfl, by decide, by decide, rfl, ?_⟩
  rintro ⟨s, hs, -⟩
  exact Except.noConfusion hs

/-- C3: when the cache misses and the primary provider call raises, the
exception is caught, the error is logged, and the original text is returned
unmodified; `translate_text` always returns (it is a total function of the
model, so no provider failure propagates). -/
theorem translate_text_error_degrades (env : Env) (text lang : String) (cache : Cache)
    (e : String) (h0 : text ≠ "") (hl : dictLookup cache (lang ++ ":" ++ text) = none)
    (hg : env.google text = .error e) :
    (translate_text env text lang cache).result = text ∧
    Event.errlog text e ∈ (translate_text env text lang cache).events := by
  simp [translate_text, h0, hl, hg]

theorem translate_text_error_degrades_witness :
    (translate_text envBothFail "hat" "as" []).result = "hat" ∧
    Event.errlog "hat" "offline" ∈ (translate_text envBothFail "hat" "as" []).events :=
  translate_text_error_degrades envBothFail "hat" "as" [] "offline" (by decide)
    (by decide) rfl

/-- C10: on the degraded path (primary provider raised) the cache is left
completely unchanged, the key is not inserted, and a later identical call
performs the network call again. -/
theorem translate_text_error_cache_unchanged (env : Env) (text lang : String)
    (cache : Cache) (e : String) (h0 : text ≠ "")
    (hl : dictLookup cache (lang ++ ":" ++ text) = none)
    (hg : env.google text = .error e) :
    (translate_text env text lang cache).cache = cache ∧
    dictLookup (translate_text env text lang cache).cache (lang ++ ":" ++ text) = none ∧
    Event.net .google text ∈
      (translate_text env text lang (translate_text env text lang cache).cache).events := by
  have h1 : (translate_text env text lang cache).cache = cache := by
    simp [translate_text, h0, hl, hg]
  refine ⟨h1, by rw [h1]; exact hl, ?_⟩
  rw [h1]
  simp [translate_text, h0, hl, hg]

theorem translate_text_error_cache_unchanged_witness :
    (translate_text envBothFail "hat" "as" []).cache = [] ∧
    dictLookup (translate_text envBothFail "hat" "as" []).cache ("as" ++ ":" ++ "hat")
      = none ∧
    Event.net .google "hat" ∈
      (translate_text envBothFail "hat" "as"
        (translate_text envBothFail "hat" "as" []).cache).events :=
  translate_text_error_cache_unchanged envBothFail "hat" "as" [] "offline" (by decide)
    (by decide) rfl

/-- C4 (amended): on the exception path no delay at all occurs; on a cache
miss whose primary call does not raise, exactly one fixed-duration delay
occurs, placed after all network calls of that execution (whether or not the
fallback call was taken); cache hits and empty input produce no events. -/
theorem translate_text_sleep_discipline (env : Env) (text lang : String) (cache : Cache) :
    (∀ e, text ≠ "" → dictLookup cache (lang ++ ":" ++ text) = none →
      env.google text = .error e →
      countSleep (translate_text env text lang cache).events = 0) ∧
    (text ≠ "" → dictLookup cache (lang ++ ":" ++ text) = none →
      (∀ e, env.google text ≠ .error e) →
      countSleep (translate_text env text lang cache).events = 1 ∧
      ∃ pre, (translate_text env text lang cache).events = pre ++ [Event.sleep] ∧
        pre.all isNet) ∧
    ((text = "" ∨ dictLookup cache (lang ++ ":" ++ text) ≠ none) →
      (translate_text env text lang cache).events = []) := by
  refine ⟨?_, ?_, ?_⟩
  · intro e h0 hl hg
    simp [translate_text, h0, hl, hg, countSleep, isSleep]
  · intro h0 hl hg
    cases hgo : env.google text with
    | error e => exact absurd hgo (hg e)
    | ok g =>
      by_cases hcl : clean_translated_text g = ""
      · cases hmm : env.mymemory text with
        | ok g2 =>
          refine ⟨by simp [translate_text, h0, hl, hgo, hcl, hmm, countSleep, isSleep],
            [Event.net .google text, Event.net .mymemory text], ?_, by simp [isNet]⟩
          simp [translate_text, h0, hl, hgo, hcl, hmm]
        | error e2 =>
          refine ⟨by simp [translate_text, h0, hl, hgo, hcl, hmm, countSleep, isSleep],
            [Event.net .google text, Event.net .mymemory text], ?_, by simp [isNet]⟩
          simp [translate_text, h0, hl, hgo, hcl, hmm]
      · refine ⟨by simp [translate_text, h0, hl, hgo, hcl, countSleep, isSleep],
          [Event.net .google text], ?_, by simp [isNet]⟩
        simp [translate_text, h0, hl, hgo, hcl]
  · intro h
    rcases h with h0 | hl
    · simp [translate_text, h0]
    · cases hl2 : dictLookup cache (lang ++ ":" ++ text) with
      | none => exact absurd hl2 hl
      | some v =>
        by_cases h0 : text = "" <;> simp [translate_text, h0, hl2]

theorem translate_text_sleep_discipline_witness :
    countSleep (translate_text envDotThenOk "cat" "as" []).events = 1 ∧
    ∃ pre, (translate_text envDotThenOk "cat" "as" []).events = pre ++ [Event.sleep] ∧
      pre.all isNet :=
  (translate_text_sleep_discipline envDotThenOk "cat" "as" []).2.1 (by decide) (by decide)
    (fun _ h => Except.noConfusion h)

/-- C4 counterexample: on the exception path a network call happens with no
delay after it, and on the fallback path two network calls share a single
delay — so the delay does not follow *every* network call on success and
failure paths alike. -/
theorem translate_text_sleep_discipline_counterexample :
    countNet (translate_text envBothFail "hat" "as" []).events = 1 ∧
    countSleep (translate_text envBothFail "hat" "as" []).events = 0 ∧
    countNet (translate_text envDotThenOk "dog" "as" []).events = 2 ∧
    countSleep (translate_text envDotThenOk "dog" "as" []).events = 1 := by decide

/-! ## Claim theorems: file processor -/

/-- The identity translator environment of the spec's end-to-end test. -/
def envId : Env := ⟨fun s => .ok s, fun s => .ok s⟩

/-- A concrete input record with a pass-through key. -/
def recW : Record :=
  [("Question", .jstr "what does a cat say"), ("Generated", .jstr "cat, feline"),
   ("Answer", .jarr ["cat"])]

theorem process_file_length (env : Env) (lang : String) (recs : List Record) (c : Cache) :
    (process_file env lang recs c).1.length = recs.length := by
  induction recs generalizing c with
  | nil => rfl
  | cons r rs ih => simp [process_file, ih]

theorem process_file_get (env : Env) (lang : String) (recs : List Record) (c : Cache)
    (i : Nat) (h : i < recs.length) (h2 : i < (process_file env lang recs c).1.length) :
    ∃ c0, (process_file env lang recs c).1.get ⟨i, h2⟩ =
      (processRecord env lang (recs.get ⟨i, h⟩) c0).record := by
  induction recs generalizing c i with
  | nil => exact absurd h (by simp)
  | cons r rs ih =>
    cases i with
    | zero => exact ⟨c, rfl⟩
    | succ j =>
      have hj : j < rs.length := Nat.lt_of_succ_lt_succ h
      have hj2 : j < (process_file env lang rs (processRecord env lang r c).cache).1.length := by
        rw [process_file_length]
        exact hj
      obtain ⟨c0, hc0⟩ := ih (processRecord env lang r c).cache j hj hj2
      exact ⟨c0, hc0⟩

theorem dictLookup_processRecord_other (env : Env) (lang : String) (rec : Record)
    (c : Cache) (k : String) (h1 : k ≠ "CleanedAnswer") (h2 : k ≠ "TranslatedAnswer")
    (h3 : k ≠ "TranslatedAnswerList") :
    dictLookup (processRecord env lang rec c).record k = dictLookup rec k := by
  simp only [processRecord]
  rw [dictLookup_dictInsert_ne _ _ _ _ h3, dictLookup_dictInsert_ne _ _ _ _ h2,
    dictLookup_dictInsert_ne _ _ _ _ h1]

/-! The successive intermediate values of `processRecord`, named so that the
lookup lemmas can state the produced field values explicitly. -/

def prCleaned (rec : Record) : String := clean_generated_answer (getStrD rec "Generated")

def prTr (env : Env) (lang : String) (rec : Record) (c : Cache) : TResult :=
  if prCleaned rec = "" then ⟨"", c, []⟩ else translate_text env (prCleaned rec) lang c

def prRec2 (env : Env) (lang : String) (rec : Record) (c : Cache) : Record :=
  dictInsert (dictInsert rec "CleanedAnswer" (.jstr (prCleaned rec)))
    "TranslatedAnswer" (.jstr (prTr env lang rec c).result)

def prTl (env : Env) (lang : String) (rec : Record) (c : Cache) :
    List String × Cache × List Event :=
  translateList env lang (getArrD (prRec2 env lang rec c) "Answer")
    (prTr env lang rec c).cache

theorem processRecord_lookup_CA (env : Env) (lang : String) (rec : Record) (c : Cache) :
    dictLookup (processRecord env lang rec c).record "CleanedAnswer"
      = some (.jstr (prCleaned rec)) := by
  simp only [processRecord, prCleaned]
  rw [dictLookup_dictInsert_ne _ _ _ _
      (by decide : ("CleanedAnswer" : String) ≠ "TranslatedAnswerList"),
    dictLookup_dictInsert_ne _ _ _ _
      (by decide : ("CleanedAnswer" : String) ≠ "TranslatedAnswer"),
    dictLookup_dictInsert_self]

theorem processRecord_lookup_TA (env : Env) (lang : String) (rec : Record) (c : Cache) :
    dictLookup (processRecord env lang rec c).record "TranslatedAnswer"
      = some (.jstr (prTr env lang rec c).result) := by
  simp only [processRecord, prTr, prCleaned]
  rw [dictLookup_dictInsert_ne _ _ _ _
      (by decide : ("TranslatedAnswer" : String) ≠ "TranslatedAnswerList"),
    dictLookup_dictInsert_self]

theorem processRecord_lookup_TAL (env : Env) (lang : String) (rec : Record) (c : Cache) :
    dictLookup (processRecord env lang rec c).record "TranslatedAnswerList"
      = some (.jarr (prTl env lang rec c).1) := by
  simp only [processRecord, prTl, prRec2, prTr, prCleaned]
  rw [dictLookup_dictInsert_self]

theorem dictLookup_prRec2_Answer (env : Env) (lang : String) (rec : Record) (c : Cache) :
    dictLookup (prRec2 env lang rec c) "Answer" = dictLookup rec "Answer" := by
  simp only [prRec2]
  rw [dictLookup_dictInsert_ne _ _ _ _
      (by decide : ("Answer" : String) ≠ "TranslatedAnswer"),
    dictLookup_dictInsert_ne _ _ _ _
      (by decide : ("Answer" : String) ≠ "CleanedAnswer")]

theorem translateList_length (env : Env) (lang : String) (l : List String) (c : Cache) :
    (translateList env lang l c).1.length = l.length := by
  induction l generalizing c with
  | nil => rfl
  | cons a rest ih => simp [translateList, ih]

theorem translateList_get (env : Env) (lang : String) (l : List String) (c : Cache)
    (i : Nat) (h : i < l.length) (h2 : i < (translateList env lang l c).1.length) :
    (translateList env lang l c).1.get ⟨i, h2⟩ =
      (translate_text env (l.get ⟨i, h⟩) lang (translateList env lang (l.take i) c).2.1).result := by
  induction l generalizing c i with
  | nil => exact absurd h (by simp)
  | cons a rest ih =>
    cases i with
    | zero => rfl
    | succ j =>
      have hj : j < rest.length := Nat.lt_of_succ_lt_succ h
      have hj2 : j < (translateList env lang rest (translate_text env a lang c).cache).1.length := by
        rw [translateList_length]
        exact hj
      have := ih (translate_text env a lang c).cache j hj hj2
      exact this

/-- C6: each output record equals its input record plus exactly the three keys
`CleanedAnswer`, `TranslatedAnswer` and `TranslatedAnswerList`: every output
record of `process_file` is the per-record transform of the corresponding
input record, every key other than those three keeps its input value (so any
key the output has beyond the input's is one of the three), and the three keys
are present with values of the produced shapes. -/
theorem process_file_frame (env : Env) (lang : String) :
    (∀ recs c i (h : i < recs.length)
        (h2 : i < (process_file env lang recs c).1.length),
      ∃ c0, (process_file env lang recs c).1.get ⟨i, h2⟩ =
        (processRecord env lang (recs.get ⟨i, h⟩) c0).record) ∧
    (∀ rec c k, k ≠ "CleanedAnswer" → k ≠ "TranslatedAnswer" →
        k ≠ "TranslatedAnswerList" →
      dictLookup (processRecord env lang rec c).record k = dictLookup rec k) ∧
    (∀ rec c, (∃ s, dictLookup (processRecord env lang rec c).record "CleanedAnswer"
        = some (.jstr s)) ∧
      (∃ s, dictLookup (processRecord env lang rec c).record "TranslatedAnswer"
        = some (.jstr s)) ∧
      (∃ l, dictLookup (processRecord env lang rec c).record "TranslatedAnswerList"
        = some (.jarr l))) := by
  refine ⟨process_file_get env lang, dictLookup_processRecord_other env lang, ?_⟩
  intro rec c
  exact ⟨⟨_, processRecord_lookup_CA env lang rec c⟩,
    ⟨_, processRecord_lookup_TA env lang rec c⟩,
    ⟨_, processRecord_lookup_TAL env lang rec c⟩⟩

theorem process_file_frame_witness :
    dictLookup (processRecord envId "as" recW []).record "Question" =
      dictLookup recW "Question" ∧
    (∃ l, dictLookup (processRecord envId "as" recW []).record "TranslatedAnswerList"
      = some (.jarr l)) :=
  ⟨(process_file_frame envId "as").2.1 recW [] "Question" (by decide) (by decide)
      (by decide),
   ((process_file_frame envId "as").2.2 recW []).2.2⟩

/-- C5: for every record, `TranslatedAnswerList` is the entry-by-entry
translation of the record's `Answer` sequence, in order and of the same
length (entry `i` is `translate_text` applied to `Answer` entry `i` in the
cache state reached after the first `i` entries); a missing `Answer` key
yields the empty sequence without error. -/
theorem process_file_answer_list (env : Env) (lang : String) :
    (∀ recs c i (h : i < recs.length)
        (h2 : i < (process_file env lang recs c).1.length),
      ∃ c0, (process_file env lang recs c).1.get ⟨i, h2⟩ =
        (processRecord env lang (recs.get ⟨i, h⟩) c0).record) ∧
    (∀ rec c, dictLookup rec "Answer" = none →
      dictLookup (processRecord env lang rec c).record "TranslatedAnswerList"
        = some (.jarr [])) ∧
    (∀ rec c l, dictLookup rec "Answer" = some (.jarr l) →
      ∃ c1, dictLookup (processRecord env lang rec c).record "TranslatedAnswerList"
        = some (.jarr (translateList env lang l c1).1)) ∧
    (∀ l c, (translateList env lang l c).1.length = l.length) ∧
    (∀ l c i (h : i < l.length) (h2 : i < (translateList env lang l c).1.length),
      (translateList env lang l c).1.get ⟨i, h2⟩ =
        (translate_text env (l.get ⟨i, h⟩) lang
          (translateList env lang (l.take i) c).2.1).result) := by
  refine ⟨process_file_get env lang, ?_, ?_, translateList_length env lang,
    translateList_get env lang⟩
  · intro rec c hnone
    rw [processRecord_lookup_TAL]
    simp only [prTl, getArrD, dictLookup_prRec2_Answer, hnone]
    rfl
  · intro rec c l hsome
    refine ⟨(prTr env lang rec c).cache, ?_⟩
    rw [processRecord_lookup_TAL]
    simp only [prTl, getArrD, dictLookup_prRec2_Answer, hsome]

theorem process_file_answer_list_witness :
    (∃ c1, dictLookup (processRecord envId "as" recW []).record "TranslatedAnswerList"
      = some (.jarr (translateList envId "as" ["cat"] c1).1)) ∧
    dictLookup (processRecord envId "as"
        [("Question", .jstr "q")] []).record "TranslatedAnswerList" = some (.jarr []) :=
  ⟨(process_file_answer_list envId "as").2.2.1 recW [] ["cat"] (by decide),
   (process_file_answer_list envId "as").2.1 [("Question", .jstr "q")] [] (by decide)⟩

/-! ## Claim theorems: cache store round trip -/

theorem hexVal_hexDigitChar (n : Nat) (h : n < 16) : hexVal (hexDigitChar n) = some n := by
  have hfin : ∀ m : Fin 16, hexVal (hexDigitChar m.val) = some m.val := by decide
  exact hfin ⟨n, h⟩

theorem escapeChar_length_pos (c : Char) : 0 < (escapeChar c).length := by
  unfold escapeChar
  repeat' split
  all_goals simp

theorem length_le_escString (s : List Char) : s.length ≤ (escString s).length := by
  induction s with
  | nil => simp [escString]
  | cons c rest ih =>
    have hpos := escapeChar_length_pos c
    simp only [escString, List.map_cons, List.flatten_cons, List.length_append,
      List.length_cons]
    simp only [escString] at ih
    omega

theorem parseJStringAux_escapeChar (c : Char) (rest : List Char) (fuel : Nat) :
    parseJStringAux (fuel + 1) (escapeChar c ++ rest) =
      (parseJStringAux fuel rest).map fun p => (c :: p.1, p.2) := by
  by_cases h1 : c = '"'
  · subst h1
    simp [escapeChar, parseJStringAux, decodeEsc]
  by_cases h2 : c = '\\'
  · subst h2
    simp [escapeChar, parseJStringAux, decodeEsc]
  by_cases h3 : c = '\n'
  · subst h3
    simp [escapeChar, parseJStringAux, decodeEsc]
  by_cases h4 : c = '\r'
  · subst h4
    simp [escapeChar, parseJStringAux, decodeEsc]
  by_cases h5 : c = '\t'
  · subst h5
    simp [escapeChar, parseJStringAux, decodeEsc]
  by_cases h6 : c = Char.ofNat 8
  · subst h6
    simp [escapeChar, parseJStringAux, decodeEsc]
  by_cases h7 : c = Char.ofNat 12
  · subst h7
    simp [escapeChar, parseJStringAux, decodeEsc]
  by_cases h8 : c.toNat < 32
  · have hd0 : hexVal '0' = some 0 := by decide
    have hdiv : c.toNat / 16 < 16 := by omega
    have hmod : c.toNat % 16 < 16 := Nat.mod_lt _ (by norm_num)
    have hd1 := hexVal_hexDigitChar (c.toNat / 16) hdiv
    have hd2 := hexVal_hexDigitChar (c.toNat % 16) hmod
    have hc : Char.ofNat (16 * (c.toNat / 16) + c.toNat % 16) = c := by
      have he : 16 * (c.toNat / 16) + c.toNat % 16 = c.toNat := by omega
      rw [he, Char.ofNat_toNat]
    simp [escapeChar, h1, h2, h3, h4, h5, h6, h7, h8, parseJStringAux, hd0, hd1, hd2]
    rw [hc]
  · simp [escapeChar, h1, h2, h3, h4, h5, h6, h7, h8, parseJStringAux]

theorem parseJStringAux_escString (s : List Char) (rest : List Char) (fuel : Nat)
    (h : s.length < fuel) :
    parseJStringAux fuel (escString s ++ '"' :: rest) = some (s, rest) := by
  induction s generalizing fuel with
  | nil =>
    obtain ⟨f, rfl⟩ : ∃ f, fuel = f + 1 := ⟨fuel - 1, by omega⟩
    simp [escString, parseJStringAux]
  | cons c s2 ih =>
    obtain ⟨f, rfl⟩ : ∃ f, fuel = f + 1 := ⟨fuel - 1, by omega⟩
    have hshape : escString (c :: s2) ++ '"' :: rest =
        escapeChar c ++ (escString s2 ++ '"' :: rest) := by
      simp [escString, List.append_assoc]
    rw [hshape, parseJStringAux_escapeChar,
      ih f (by simp only [List.length_cons] at h; omega)]
    rfl

theorem parseJString_renderJString (s : String) (rest : List Char) :
    parseJString (renderJString s ++ rest) = some (s, rest) := by
  have hlen : s.data.length < (escString s.data ++ '"' :: rest).length := by
    have := length_le_escString s.data
    simp only [List.length_append, List.length_cons]
    omega
  have hshape : renderJString s ++ rest = '"' :: (escString s.data ++ '"' :: rest) := by
    simp [renderJString, List.append_assoc]
  rw [hshape]
  simp only [parseJString, if_pos rfl]
  rw [parseJStringAux_escString s.data rest _ hlen]
  rfl

theorem skipWs_nil : skipWs [] = [] := rfl

theorem skipWs_cons_not_ws (c : Char) (cs : List Char) (h : isWs c = false) :
    skipWs (c :: cs) = c :: cs := by
  simp [skipWs, List.dropWhile_cons, h]

theorem skipWs_colon (cs : List Char) : skipWs (':' :: cs) = ':' :: cs := by
  simp [skipWs, List.dropWhile_cons, isWs]

theorem skipWs_comma (cs : List Char) : skipWs (',' :: cs) = ',' :: cs := by
  simp [skipWs, List.dropWhile_cons, isWs]

theorem skipWs_rbrace (cs : List Char) : skipWs ('}' :: cs) = '}' :: cs := by
  simp [skipWs, List.dropWhile_cons, isWs]

theorem skipWs_lbrace (cs : List Char) : skipWs ('{' :: cs) = '{' :: cs := by
  simp [skipWs, List.dropWhile_cons, isWs]

theorem skipWs_space (cs : List Char) : skipWs (' ' :: cs) = skipWs cs := by
  simp [skipWs, List.dropWhile_cons, isWs]

theorem skipWs_newline (cs : List Char) : skipWs ('\n' :: cs) = skipWs cs := by
  simp [skipWs, List.dropWhile_cons, isWs]

theorem skipWs_renderJString (s : String) (r : List Char) :
    skipWs (renderJString s ++ r) = renderJString s ++ r := by
  simp only [renderJString, List.cons_append]
  rw [skipWs_cons_not_ws]
  decide

theorem skipWs_renderItems (p : String × String) (ps : List (String × String))
    (r : List Char) :
    skipWs (renderItems (p :: ps) ++ r) = renderItems (p :: ps) ++ r := by
  cases ps with
  | nil =>
    simp only [renderItems, renderPair, List.append_assoc]
    rw [skipWs_renderJString]
  | cons q ps2 =>
    simp only [renderItems, renderPair, List.append_assoc]
    rw [skipWs_renderJString]

theorem parsePairs_renderItems (ps : List (String × String)) (fuel : Nat)
    (hne : ps ≠ []) (hf : ps.length ≤ fuel) :
    parsePairs fuel (renderItems ps ++ ['\n', '}']) = some ps := by
  induction ps generalizing fuel with
  | nil => exact absurd rfl hne
  | cons p ps2 ih =>
    have hpos : 0 < fuel := Nat.lt_of_lt_of_le (by simp) hf
    obtain ⟨f, rfl⟩ : ∃ f, fuel = f + 1 := ⟨fuel - 1, by omega⟩
    cases ps2 with
    | nil =>
      simp only [renderItems, renderPair, List.append_assoc, List.cons_append]
      simp [parsePairs, parseJString_renderJString, skipWs_colon, skipWs_space,
        skipWs_newline, skipWs_rbrace, skipWs_renderJString, skipWs_nil]
    | cons q ps22 =>
      have hlen2 : (q :: ps22).length ≤ f := by
        have hf2 := hf
        simp only [List.length_cons] at hf2 ⊢
        omega
      have hih : parsePairs f (renderItems (q :: ps22) ++ ['\n', '}'])
          = some (q :: ps22) := ih f (by simp) hlen2
      simp only [renderItems, renderPair, List.append_assoc, List.cons_append]
      simp [parsePairs, parseJString_renderJString, skipWs_colon, skipWs_space,
        skipWs_newline, skipWs_comma, skipWs_renderItems, skipWs_renderJString, hih]

theorem length_le_renderItems (ps : List (String × String)) :
    ps.length ≤ (renderItems ps).length := by
  induction ps with
  | nil => simp [renderItems]
  | cons p ps2 ih =>
    cases ps2 with
    | nil =>
      simp [renderItems, renderPair, renderJString]
    | cons q ps22 =>
      simp only [renderItems, List.append_assoc, List.length_append, List.length_cons]
      simp only [List.length_cons] at ih
      omega

theorem renderItems_cons_head (p : String × String) (ps : List (String × String)) :
    ∃ t, renderItems (p :: ps) = '"' :: t := by
  cases ps with
  | nil => exact ⟨_, rfl⟩
  | cons q ps2 => exact ⟨_, rfl⟩

theorem data_mk (l : List Char) : (String.mk l).data = l := rfl

theorem json_loads_save_cache (m : Cache) : json_loads (save_cache m) = some m := by
  cases m with
  | nil => decide
  | cons p rest =>
    have hlen : (p :: rest).length ≤ (renderItems (p :: rest) ++ ['\n', '}']).length := by
      have := length_le_renderItems (p :: rest)
      simp only [List.length_append, List.length_cons]
      simp only [List.length_cons] at this
      omega
    obtain ⟨t, ht⟩ := renderItems_cons_head p rest
    simp only [save_cache, json_loads, data_mk, List.cons_append, List.nil_append,
      List.append_assoc]
    simp only [skipWs_lbrace, if_true]
    simp only [skipWs_newline, skipWs_space, skipWs_renderItems]
    rw [ht, List.cons_append]
    show (if ('"' : Char) = '}' then (if skipWs (t ++ ['\n', '}']) = [] then some [] else none)
      else parsePairs ('"' :: (t ++ ['\n', '}'])).length ('"' :: (t ++ ['\n', '}'])))
      = some (p :: rest)
    rw [if_neg (by decide)]
    rw [← List.cons_append, ← ht]
    exact parsePairs_renderItems (p :: rest) _ (by simp) hlen

theorem dictInsert_of_fresh (d : List (String × String)) (k : String) (v : String)
    (h : ∀ q ∈ d, q.1 ≠ k) : dictInsert d k v = d ++ [(k, v)] := by
  induction d with
  | nil => rfl
  | cons q rest ih =>
    obtain ⟨k2, v2⟩ := q
    have h1 : k2 ≠ k := h (k2, v2) (List.mem_cons_self _ _)
    simp only [dictInsert, h1, if_false, List.cons_append]
    rw [ih fun r hr => h r (List.mem_cons_of_mem _ hr)]

theorem buildDict_aux (ps : List (String × String)) (d : List (String × String))
    (hnd : (ps.map Prod.fst).Nodup)
    (hdisj : ∀ q ∈ ps, ∀ r ∈ d, r.1 ≠ q.1) :
    ps.foldl (fun d p => dictInsert d p.1 p.2) d = d ++ ps := by
  induction ps generalizing d with
  | nil => simp
  | cons p ps2 ih =>
    simp only [List.map_cons, List.nodup_cons] at hnd
    obtain ⟨hp, hnd2⟩ := hnd
    simp only [List.foldl_cons]
    rw [dictInsert_of_fresh d p.1 p.2
      (fun r hr => hdisj p (List.mem_cons_self _ _) r hr)]
    have hdisj2 : ∀ q ∈ ps2, ∀ r ∈ d ++ [(p.1, p.2)], r.1 ≠ q.1 := by
      intro q hq r hr
      rcases List.mem_append.mp hr with hrd | hrp
      · exact hdisj q (List.mem_cons_of_mem _ hq) r hrd
      · have hre : r = (p.1, p.2) := by simpa using hrp
        subst hre
        intro hcontra
        apply hp
        rw [show p.1 = q.1 from hcontra]
        exact List.mem_map_of_mem Prod.fst hq
    rw [ih (d ++ [(p.1, p.2)]) hnd2 hdisj2]
    simp

theorem buildDict_eq (ps : List (String × String))
    (hnd : (ps.map Prod.fst).Nodup) : buildDict ps = ps := by
  have := buildDict_aux ps [] hnd (by simp)
  simpa [buildDict] using this

/-- C9: loading the cache file written for a mapping `M` returns `M` itself —
`load_cache` after `save_cache` is the identity on every string-to-string
mapping, ASCII or non-ASCII (a mapping's keys are distinct, as in a Python
dict). -/
theorem load_cache_save_cache (m : Cache) (h : (m.map Prod.fst).Nodup) :
    load_cache (some (save_cache m)) = some m := by
  simp only [load_cache, json_loads_save_cache, Option.map_some']
  rw [buildDict_eq m h]

theorem load_cache_save_cache_witness :
    load_cache (some (save_cache [("as:চাহ", "চা"), ("as:পানী", "pani\n\"w\"")])) =
      some [("as:চাহ", "চা"), ("as:পানী", "pani\n\"w\"")] :=
  load_cache_save_cache [("as:চাহ", "চা"), ("as:পানী", "pani\n\"w\"")] (by decide)

end TranslatePy
